import Mathlib

/-!
Shallow embedding of the `lyn` scanner library (src/lib.rs, src/action.rs,
src/error.rs, src/scanner.rs): a single-character-lookahead scanning
primitive.  The Rust `usize` cursor is modelled as `Nat` (it only ever
grows by one from zero, so overflow is unreachable); `Vec<char>` is a
`List Char`; `&str` prefixes handed to the classifier are `String`;
fallible lookups return `Option`; `Result<Option<T>, Error>` is
`Except Error (Option T)`.  Methods that mutate `self` in Rust return the
updated `Scanner` alongside their value.
-/

namespace Lyn

/-- Classifier decision vocabulary, from src/action.rs (`enum Action<T>`). -/
inductive Action (T : Type) where
  | Request : T → Action T
  | Require : Action T
  | Return : T → Action T
deriving DecidableEq

/-- Failure vocabulary, from src/error.rs (`enum Error`). -/
inductive Error where
  | EndOfLine : Error
  | Character : Nat → Error
deriving DecidableEq

/-- Scanner state, from src/scanner.rs (`struct Scanner`). -/
structure Scanner where
  cursor : Nat
  characters : List Char
deriving DecidableEq

/-- `Scanner::new`: cursor 0 over the characters of the input string. -/
def Scanner.new (string : String) : Scanner :=
  { cursor := 0, characters := string.data }

/-- `Scanner::peek`: the character at the cursor, without advancing. -/
def Scanner.peek (s : Scanner) : Option Char :=
  s.characters[s.cursor]?

/-- `Scanner::is_done`: true iff the cursor equals the sequence length. -/
def Scanner.is_done (s : Scanner) : Bool :=
  s.cursor == s.characters.length

/-- `Scanner::pop`: `self.characters.get(self.cursor).map(|c| { self.cursor += 1; c })`. -/
def Scanner.pop (s : Scanner) : Option Char × Scanner :=
  match s.characters[s.cursor]? with
  | some c => (some c, { s with cursor := s.cursor + 1 })
  | none => (none, s)

/-- `Scanner::take`: advance and return true iff the character at the cursor
equals `target`; otherwise return false with the cursor unchanged. -/
def Scanner.take (s : Scanner) (target : Char) : Bool × Scanner :=
  match s.characters[s.cursor]? with
  | some character =>
      if character = target then (true, { s with cursor := s.cursor + 1 })
      else (false, s)
  | none => (false, s)

/-- `Scanner::transform`: apply `cb` to the character at the cursor (if any);
on `some`, advance and return the value; otherwise no advance, no value. -/
def Scanner.transform {U : Type} (s : Scanner) (cb : Char → Option U) : Option U × Scanner :=
  match s.characters[s.cursor]? with
  | some c =>
      match cb c with
      | some u => (some u, { s with cursor := s.cursor + 1 })
      | none => (none, s)
  | none => (none, s)

/-- Outcome of the `scan` loop: the final cursor, the returned
`Result<Option<T>, Error>`, and — as ghost instrumentation absent from the
source — the list of prefixes passed to the classifier callback, in order
(one entry per callback invocation). -/
structure ScanOut (T : Type) where
  cursor : Nat
  result : Except Error (Option T)
  args : List String

/-- The loop of `Scanner::scan` (src/scanner.rs lines 58-104), embedded with
the source's index-based access `self.characters.get(self.cursor)`
(`chars[cursor]` guarded by `cursor < chars.length`).  Loop-local state
`sequence` (the accumulated prefix), `require` and `request` are parameters;
each iteration appends the current character to `sequence`, invokes `cb`,
and branches exactly as the source `match`.  The `args` field additionally
records each string passed to `cb`. -/
def scanAux {T : Type} (chars : List Char) (cb : String → Option (Action T))
    (cursor : Nat) (sequence : String) (require : Bool) (request : Option T) :
    ScanOut T :=
  if h : cursor < chars.length then
    let sequence := sequence.push chars[cursor]
    match cb sequence with
    | some (Action.Return result) =>
        { cursor := cursor + 1, result := Except.ok (some result), args := [sequence] }
    | some (Action.Request result) =>
        let out := scanAux chars cb (cursor + 1) sequence false (some result)
        { out with args := sequence :: out.args }
    | some Action.Require =>
        let out := scanAux chars cb (cursor + 1) sequence true request
        { out with args := sequence :: out.args }
    | none =>
        if require then
          { cursor := cursor, result := Except.error (Error.Character cursor), args := [sequence] }
        else
          { cursor := cursor, result := Except.ok request, args := [sequence] }
  else
    if require then
      { cursor := cursor, result := Except.error Error.EndOfLine, args := [] }
    else
      { cursor := cursor, result := Except.ok request, args := [] }
termination_by chars.length - cursor
decreasing_by
  all_goals omega

/-- Structurally recursive companion of `scanAux` that walks the still-unread
suffix of the character list instead of indexing into the whole list; proved
equal to `scanAux` (on `chars.drop cursor`) below, and used to evaluate
concrete scan runs and to carry out inductions. -/
def scanGo {T : Type} (cb : String → Option (Action T)) :
    Nat → List Char → String → Bool → Option T → ScanOut T
  | cursor, [], _, require, request =>
      if require then
        { cursor := cursor, result := Except.error Error.EndOfLine, args := [] }
      else
        { cursor := cursor, result := Except.ok request, args := [] }
  | cursor, target :: rest, sequence, require, request =>
      let sequence := sequence.push target
      match cb sequence with
      | some (Action.Return result) =>
          { cursor := cursor + 1, result := Except.ok (some result), args := [sequence] }
      | some (Action.Request result) =>
          let out := scanGo cb (cursor + 1) rest sequence false (some result)
          { out with args := sequence :: out.args }
      | some Action.Require =>
          let out := scanGo cb (cursor + 1) rest sequence true request
          { out with args := sequence :: out.args }
      | none =>
          if require then
            { cursor := cursor, result := Except.error (Error.Character cursor), args := [sequence] }
          else
            { cursor := cursor, result := Except.ok request, args := [sequence] }

/-- `Scanner::scan`: run the loop from the current cursor with empty prefix,
`require = false` and no pending request; return the result and the scanner
with the cursor the loop left behind. -/
def Scanner.scan {T : Type} (s : Scanner) (cb : String → Option (Action T)) :
    Except Error (Option T) × Scanner :=
  let out := scanAux s.characters cb s.cursor "" false none
  (out.result, { s with cursor := out.cursor })

/-- Shift the position carried by an invalid-character error by `d`;
end-of-line carries no position. -/
def shiftError (d : Nat) : Error → Error
  | Error.EndOfLine => Error.EndOfLine
  | Error.Character p => Error.Character (p + d)

/-- Shift any error position inside a scan result by `d`; success values are
untouched. -/
def shiftResult {T : Type} (d : Nat) : Except Error (Option T) → Except Error (Option T)
  | Except.ok v => Except.ok v
  | Except.error e => Except.error (shiftError d e)

/-- One cursor-mutating operation of the public API, for stating the
whole-API cursor invariant. -/
inductive Op (α : Type) where
  | pop : Op α
  | take : Char → Op α
  | transform : (Char → Option α) → Op α
  | scan : (String → Option (Action α)) → Op α

/-- Apply one operation, keeping only the mutated scanner. -/
def applyOp {α : Type} (s : Scanner) : Op α → Scanner
  | Op.pop => s.pop.2
  | Op.take c => (s.take c).2
  | Op.transform f => (s.transform f).2
  | Op.scan cb => (s.scan cb).2

/-- Run a sequence of operations left to right. -/
def runOps {α : Type} (ops : List (Op α)) (s : Scanner) : Scanner :=
  ops.foldl applyOp s

/-- Concrete classifier of the spec scenario for claim C2:
maps "a" to `Request 1`, "ab" to `Require`, anything else to no decision. -/
def cbRequestRequire : String → Option (Action Nat) :=
  fun s =>
    if s = "a" then some (Action.Request 1)
    else if s = "ab" then some Action.Require
    else none

/-- Concrete classifier that never decides, used by witnesses. -/
def cbNone : String → Option (Action Nat) :=
  fun _ => none

/-- Concrete classifier that requires on "a" only, used for the C10
counterexample (absolute error positions leak the starting cursor). -/
def cbRequireA : String → Option (Action Nat) :=
  fun s => if s = "a" then some Action.Require else none

/-- Concrete classifier that always requires more input, used by witnesses
that exercise the end-of-line failure. -/
def cbRequireAll : String → Option (Action Nat) :=
  fun _ => some Action.Require

/-- Concrete per-character transformer accepting only 'a', used by witnesses. -/
def fOnlyA : Char → Option Nat :=
  fun c => if c = 'a' then some 0 else none

/-- The index-based loop equals the suffix-walking loop, run on the unread
suffix `chars.drop cursor`, with fuel bound `n` for the induction. -/
theorem scanAux_eq_scanGo_bounded {T : Type} (cb : String → Option (Action T)) :
    ∀ (n : Nat) (chars : List Char) (cursor : Nat) (sequence : String)
      (require : Bool) (request : Option T), chars.length - cursor ≤ n →
      scanAux chars cb cursor sequence require request =
        scanGo cb cursor (chars.drop cursor) sequence require request := by
  intro n
  induction n with
  | zero =>
    intro chars cursor seq req rq hn
    have hge : chars.length ≤ cursor := by omega
    rw [scanAux, dif_neg (by omega)]
    rw [List.drop_eq_nil_of_le hge]
    rfl
  | succ n ih =>
    intro chars cursor seq req rq hn
    by_cases hlt : cursor < chars.length
    · have hdrop : chars.drop cursor = chars[cursor] :: chars.drop (cursor + 1) :=
        List.drop_eq_getElem_cons hlt
      rw [scanAux, dif_pos hlt, hdrop]
      cases hcb : cb (seq.push chars[cursor]) with
      | none => simp only [scanGo, hcb]
      | some a =>
        cases a with
        | Return r => simp only [scanGo, hcb]
        | Request r =>
          simp only [scanGo, hcb]
          rw [ih chars (cursor + 1) (seq.push chars[cursor]) false (some r) (by omega)]
        | Require =>
          simp only [scanGo, hcb]
          rw [ih chars (cursor + 1) (seq.push chars[cursor]) true rq (by omega)]
    · rw [scanAux, dif_neg hlt, List.drop_eq_nil_of_le (by omega)]
      rfl

/-- The index-based loop equals the suffix-walking loop on the unread suffix. -/
theorem scanAux_eq_scanGo {T : Type} (cb : String → Option (Action T))
    (chars : List Char) (cursor : Nat) (sequence : String)
    (require : Bool) (request : Option T) :
    scanAux chars cb cursor sequence require request =
      scanGo cb cursor (chars.drop cursor) sequence require request :=
  scanAux_eq_scanGo_bounded cb (chars.length - cursor) chars cursor sequence require request
    (Nat.le_refl _)

/-- `Scanner.scan` expressed through the suffix-walking loop. -/
theorem Scanner.scan_eq_scanGo {T : Type} (s : Scanner) (cb : String → Option (Action T)) :
    s.scan cb =
      ((scanGo cb s.cursor (s.characters.drop s.cursor) "" false none).result,
        { s with cursor := (scanGo cb s.cursor (s.characters.drop s.cursor) "" false none).cursor }) := by
  unfold Scanner.scan
  rw [scanAux_eq_scanGo]

/-- Pushing a character appends it to the underlying character list. -/
theorem push_eq_mk (s : String) (c : Char) : s.push c = String.mk (s.data ++ [c]) := by
  cases s
  rfl

/-- The loop never moves the cursor backwards and never past the suffix end. -/
theorem scanGo_cursor_bounds {T : Type} (cb : String → Option (Action T)) :
    ∀ (rem : List Char) (cursor : Nat) (sequence : String) (require : Bool) (request : Option T),
      cursor ≤ (scanGo cb cursor rem sequence require request).cursor ∧
        (scanGo cb cursor rem sequence require request).cursor ≤ cursor + rem.length := by
  intro rem
  induction rem with
  | nil =>
    intro cursor seq req rq
    cases req <;> simp [scanGo]
  | cons c rest ih =>
    intro cursor seq req rq
    cases hcb : cb (seq.push c) with
    | none =>
      cases req <;> simp [scanGo, hcb]
    | some a =>
      cases a with
      | Return r => simp only [scanGo, hcb, List.length_cons]; omega
      | Request r =>
        have h := ih (cursor + 1) (seq.push c) false (some r)
        simp only [scanGo, hcb, List.length_cons]
        omega
      | Require =>
        have h := ih (cursor + 1) (seq.push c) true rq
        simp only [scanGo, hcb, List.length_cons]
        omega

/-- An invalid-character failure always carries the final cursor position. -/
theorem scanGo_char_pos {T : Type} (cb : String → Option (Action T)) :
    ∀ (rem : List Char) (cursor : Nat) (sequence : String) (require : Bool) (request : Option T)
      (p : Nat),
      (scanGo cb cursor rem sequence require request).result = Except.error (Error.Character p) →
        p = (scanGo cb cursor rem sequence require request).cursor := by
  intro rem
  induction rem with
  | nil =>
    intro cursor seq req rq p h
    cases req <;> simp [scanGo] at h
  | cons c rest ih =>
    intro cursor seq req rq p h
    cases hcb : cb (seq.push c) with
    | none =>
      cases req <;> simp [scanGo, hcb] at h ⊢ <;> omega
    | some a =>
      cases a with
      | Return r => simp [scanGo, hcb] at h
      | Request r =>
        simp only [scanGo, hcb] at h ⊢
        exact ih (cursor + 1) (seq.push c) false (some r) p h
      | Require =>
        simp only [scanGo, hcb] at h ⊢
        exact ih (cursor + 1) (seq.push c) true rq p h

/-- An end-of-line failure only arises with the whole suffix consumed. -/
theorem scanGo_eol_cursor {T : Type} (cb : String → Option (Action T)) :
    ∀ (rem : List Char) (cursor : Nat) (sequence : String) (require : Bool) (request : Option T),
      (scanGo cb cursor rem sequence require request).result = Except.error Error.EndOfLine →
        (scanGo cb cursor rem sequence require request).cursor = cursor + rem.length := by
  intro rem
  induction rem with
  | nil =>
    intro cursor seq req rq h
    cases req <;> simp [scanGo] at h ⊢
  | cons c rest ih =>
    intro cursor seq req rq h
    cases hcb : cb (seq.push c) with
    | none =>
      cases req <;> simp [scanGo, hcb] at h
    | some a =>
      cases a with
      | Return r => simp [scanGo, hcb] at h
      | Request r =>
        simp only [scanGo, hcb] at h ⊢
        rw [ih (cursor + 1) (seq.push c) false (some r) h, List.length_cons]
        omega
      | Require =>
        simp only [scanGo, hcb] at h ⊢
        rw [ih (cursor + 1) (seq.push c) true rq h, List.length_cons]
        omega

/-- The classifier arguments recorded by the loop: there is at most one per
unread character, and the i-th one (0-based) is the starting prefix extended
by the first i+1 characters of the suffix. -/
theorem scanGo_args {T : Type} (cb : String → Option (Action T)) :
    ∀ (rem : List Char) (cursor : Nat) (sequence : String) (require : Bool) (request : Option T),
      (scanGo cb cursor rem sequence require request).args.length ≤ rem.length ∧
        ∀ i, i < (scanGo cb cursor rem sequence require request).args.length →
          (scanGo cb cursor rem sequence require request).args[i]? =
            some (String.mk (sequence.data ++ rem.take (i + 1))) := by
  intro rem
  induction rem with
  | nil =>
    intro cursor seq req rq
    cases req <;> simp [scanGo]
  | cons c rest ih =>
    intro cursor seq req rq
    cases hcb : cb (seq.push c) with
    | none =>
      cases req <;> simp only [scanGo, hcb, Bool.false_eq_true, if_false, if_true] <;>
        simp [push_eq_mk]
    | some a =>
      cases a with
      | Return r =>
        simp only [scanGo, hcb]
        simp [push_eq_mk]
      | Request r =>
        obtain ⟨hlen, hargs⟩ := ih (cursor + 1) (seq.push c) false (some r)
        simp only [scanGo, hcb, List.length_cons]
        constructor
        · omega
        · intro i hi
          cases i with
          | zero => simp [push_eq_mk]
          | succ j =>
            simp only [List.getElem?_cons_succ, List.take_succ_cons]
            rw [hargs j (by simpa using hi)]
            simp [push_eq_mk]
      | Require =>
        obtain ⟨hlen, hargs⟩ := ih (cursor + 1) (seq.push c) true rq
        simp only [scanGo, hcb, List.length_cons]
        constructor
        · omega
        · intro i hi
          cases i with
          | zero => simp [push_eq_mk]
          | succ j =>
            simp only [List.getElem?_cons_succ, List.take_succ_cons]
            rw [hargs j (by simpa using hi)]
            simp [push_eq_mk]

/-- Starting the loop at a shifted cursor shifts the final cursor and any
invalid-character position by the same amount and changes nothing else. -/
theorem scanGo_shift {T : Type} (cb : String → Option (Action T)) :
    ∀ (rem : List Char) (d cursor : Nat) (sequence : String) (require : Bool)
      (request : Option T),
      scanGo cb (cursor + d) rem sequence require request =
        { cursor := (scanGo cb cursor rem sequence require request).cursor + d,
          result := shiftResult d (scanGo cb cursor rem sequence require request).result,
          args := (scanGo cb cursor rem sequence require request).args } := by
  intro rem
  induction rem with
  | nil =>
    intro d cursor seq req rq
    cases req <;> simp [scanGo, shiftResult, shiftError]
  | cons c rest ih =>
    intro d cursor seq req rq
    cases hcb : cb (seq.push c) with
    | none =>
      cases req <;> simp [scanGo, hcb, shiftResult, shiftError]
    | some a =>
      cases a with
      | Return r =>
        simp only [scanGo, hcb, shiftResult, ScanOut.mk.injEq]
        exact ⟨by omega, trivial, trivial⟩
      | Request r =>
        simp only [scanGo, hcb]
        rw [show cursor + d + 1 = (cursor + 1) + d by omega, ih d (cursor + 1) (seq.push c) false (some r)]
      | Require =>
        simp only [scanGo, hcb]
        rw [show cursor + d + 1 = (cursor + 1) + d by omega, ih d (cursor + 1) (seq.push c) true rq]

/-- Claim C1: at any scan iteration where the classifier returns no decision
for the current prefix, the cursor is not advanced for the character just
appended and the loop terminates — with an invalid-character error carrying
the current cursor offset when the require flag is set, and with the pending
value otherwise; moreover every invalid-character failure of `scan` reports
exactly the final cursor offset (one past the last consumed character). -/
theorem C1_scan_no_decision :
    (∀ (T : Type) (chars : List Char) (cb : String → Option (Action T)) (cursor : Nat)
      (sequence : String) (require : Bool) (request : Option T) (c : Char),
      chars[cursor]? = some c → cb (sequence.push c) = none →
        scanAux chars cb cursor sequence require request =
          { cursor := cursor,
            result := if require then Except.error (Error.Character cursor)
              else Except.ok request,
            args := [sequence.push c] }) ∧
    (∀ (T : Type) (s : Scanner) (cb : String → Option (Action T)) (p : Nat),
      (s.scan cb).1 = Except.error (Error.Character p) → p = (s.scan cb).2.cursor) := by
  constructor
  · intro T chars cb cursor seq req rq c hget hcb
    obtain ⟨hlt, hc⟩ := List.getElem?_eq_some.mp hget
    have hdrop : chars.drop cursor = c :: chars.drop (cursor + 1) := by
      rw [List.drop_eq_getElem_cons hlt, hc]
    rw [scanAux_eq_scanGo, hdrop]
    cases req <;> simp [scanGo, hcb]
  · intro T s cb p h
    rw [Scanner.scan_eq_scanGo] at h
    rw [Scanner.scan_eq_scanGo]
    exact scanGo_char_pos cb (s.characters.drop s.cursor) s.cursor "" false none p h

/-- Witness for C1: the no-decision step on input "a" with a classifier that
never decides and an outstanding require flag, and the reported position of
the concrete failing scan of "ab" against a classifier requiring after "a". -/
theorem C1_witness :
    scanAux ['a'] cbNone 0 "" true (none : Option Nat) =
      { cursor := 0, result := Except.error (Error.Character 0), args := ["a"] } ∧
    (1 : Nat) = ((Scanner.mk 0 ['a', 'b']).scan cbRequireA).2.cursor := by
  constructor
  · exact C1_scan_no_decision.1 Nat ['a'] cbNone 0 "" true none 'a' rfl rfl
  · exact C1_scan_no_decision.2 Nat (Scanner.mk 0 ['a', 'b']) cbRequireA 1
      (by rw [Scanner.scan_eq_scanGo]; rfl)

/-- Claim C2: at any scan iteration where the classifier returns
`Request v` for the current prefix, the cursor advances by one, the require
flag resets to false, the pending value becomes `v`, and the loop continues
from there; concretely, scanning "abc" with a classifier mapping "a" to
`Request 1`, "ab" to `Require` and anything else to no decision fails with
an invalid-character error at position 2 and leaves the cursor at 2. -/
theorem C2_scan_request_step :
    (∀ (T : Type) (chars : List Char) (cb : String → Option (Action T)) (cursor : Nat)
      (sequence : String) (require : Bool) (request : Option T) (c : Char) (v : T),
      chars[cursor]? = some c → cb (sequence.push c) = some (Action.Request v) →
        scanAux chars cb cursor sequence require request =
          { cursor := (scanAux chars cb (cursor + 1) (sequence.push c) false (some v)).cursor,
            result := (scanAux chars cb (cursor + 1) (sequence.push c) false (some v)).result,
            args :=
              sequence.push c ::
                (scanAux chars cb (cursor + 1) (sequence.push c) false (some v)).args }) ∧
    (Scanner.mk 0 ['a', 'b', 'c']).scan cbRequestRequire =
      (Except.error (Error.Character 2), Scanner.mk 2 ['a', 'b', 'c']) := by
  constructor
  · intro T chars cb cursor seq req rq c v hget hcb
    obtain ⟨hlt, hc⟩ := List.getElem?_eq_some.mp hget
    have hdrop : chars.drop cursor = c :: chars.drop (cursor + 1) := by
      rw [List.drop_eq_getElem_cons hlt, hc]
    rw [scanAux_eq_scanGo, scanAux_eq_scanGo, hdrop]
    simp [scanGo, hcb]
  · rw [Scanner.scan_eq_scanGo]
    rfl

/-- Witness for C2: the request step applied at the first character of "ab"
under the concrete classifier of the spec scenario. -/
theorem C2_witness :
    scanAux ['a', 'b'] cbRequestRequire 0 "" false none =
      { cursor := (scanAux ['a', 'b'] cbRequestRequire 1 "a" false (some 1)).cursor,
        result := (scanAux ['a', 'b'] cbRequestRequire 1 "a" false (some 1)).result,
        args := "a" :: (scanAux ['a', 'b'] cbRequestRequire 1 "a" false (some 1)).args } :=
  C2_scan_request_step.1 Nat ['a', 'b'] cbRequestRequire 0 "" false none 'a' 1 rfl rfl

/-- Claim C3: when the input is exhausted as an iteration would begin, scan
fails with the end-of-line error exactly when the require flag is set and
otherwise succeeds with the pending value; and whenever a whole `scan` call
fails with end-of-line (starting from a cursor within bounds), the final
cursor sits at end of input. -/
theorem C3_scan_end_of_input :
    (∀ (T : Type) (chars : List Char) (cb : String → Option (Action T)) (cursor : Nat)
      (sequence : String) (require : Bool) (request : Option T),
      chars[cursor]? = none →
        scanAux chars cb cursor sequence require request =
          { cursor := cursor,
            result := if require then Except.error Error.EndOfLine else Except.ok request,
            args := [] }) ∧
    (∀ (T : Type) (s : Scanner) (cb : String → Option (Action T)),
      s.cursor ≤ s.characters.length →
        (s.scan cb).1 = Except.error Error.EndOfLine →
          (s.scan cb).2.cursor = s.characters.length) := by
  constructor
  · intro T chars cb cursor seq req rq hget
    have hge : chars.length ≤ cursor := List.getElem?_eq_none_iff.mp hget
    rw [scanAux, dif_neg (by omega)]
    cases req <;> rfl
  · intro T s cb hle h
    rw [Scanner.scan_eq_scanGo] at h
    rw [Scanner.scan_eq_scanGo]
    have hend := scanGo_eol_cursor cb (s.characters.drop s.cursor) s.cursor "" false none h
    have hlen : (s.characters.drop s.cursor).length = s.characters.length - s.cursor :=
      List.length_drop s.cursor s.characters
    show (scanGo cb s.cursor (s.characters.drop s.cursor) "" false none).cursor =
      s.characters.length
    omega

/-- Witness for C3: the end-of-input step on an exhausted store with an
outstanding require flag, and the concrete end-of-line failure of scanning
"a" against an always-require classifier, which parks the cursor at the end. -/
theorem C3_witness :
    scanAux [] cbNone 0 "" true (none : Option Nat) =
      { cursor := 0, result := Except.error Error.EndOfLine, args := [] } ∧
    ((Scanner.mk 0 ['a']).scan cbRequireAll).2.cursor = 1 := by
  constructor
  · exact C3_scan_end_of_input.1 Nat [] cbNone 0 "" true none rfl
  · exact C3_scan_end_of_input.2 Nat (Scanner.mk 0 ['a']) cbRequireAll (by decide)
      (by rw [Scanner.scan_eq_scanGo]; rfl)

/-- `pop` leaves the character sequence unchanged. -/
theorem pop_characters (s : Scanner) : s.pop.2.characters = s.characters := by
  unfold Scanner.pop
  cases s.characters[s.cursor]? <;> rfl

/-- `pop` never moves the cursor backwards nor out of bounds. -/
theorem pop_cursor (s : Scanner) :
    s.cursor ≤ s.pop.2.cursor ∧
      (s.cursor ≤ s.characters.length → s.pop.2.cursor ≤ s.characters.length) := by
  unfold Scanner.pop
  cases h : s.characters[s.cursor]? with
  | none => exact ⟨Nat.le_refl _, fun hle => hle⟩
  | some c =>
    have hlt := (List.getElem?_eq_some.mp h).1
    exact ⟨Nat.le_succ _, fun _ => hlt⟩

/-- `take` leaves the character sequence unchanged. -/
theorem take_characters (s : Scanner) (c : Char) : (s.take c).2.characters = s.characters := by
  unfold Scanner.take
  cases s.characters[s.cursor]? with
  | none => rfl
  | some ch =>
    by_cases hc : ch = c <;> simp [hc]

/-- `take` never moves the cursor backwards nor out of bounds. -/
theorem take_cursor (s : Scanner) (c : Char) :
    s.cursor ≤ (s.take c).2.cursor ∧
      (s.cursor ≤ s.characters.length → (s.take c).2.cursor ≤ s.characters.length) := by
  unfold Scanner.take
  cases h : s.characters[s.cursor]? with
  | none => exact ⟨Nat.le_refl _, fun hle => hle⟩
  | some ch =>
    have hlt := (List.getElem?_eq_some.mp h).1
    by_cases hc : ch = c <;> simp [hc] <;> omega

/-- `transform` leaves the character sequence unchanged. -/
theorem transform_characters {U : Type} (s : Scanner) (f : Char → Option U) :
    (s.transform f).2.characters = s.characters := by
  unfold Scanner.transform
  cases s.characters[s.cursor]? with
  | none => rfl
  | some ch =>
    dsimp only
    cases f ch <;> rfl

/-- `transform` never moves the cursor backwards nor out of bounds. -/
theorem transform_cursor {U : Type} (s : Scanner) (f : Char → Option U) :
    s.cursor ≤ (s.transform f).2.cursor ∧
      (s.cursor ≤ s.characters.length → (s.transform f).2.cursor ≤ s.characters.length) := by
  unfold Scanner.transform
  cases h : s.characters[s.cursor]? with
  | none => exact ⟨Nat.le_refl _, fun hle => hle⟩
  | some ch =>
    have hlt := (List.getElem?_eq_some.mp h).1
    dsimp only
    cases f ch with
    | none => exact ⟨Nat.le_refl _, fun hle => hle⟩
    | some u => exact ⟨Nat.le_succ _, fun _ => hlt⟩

/-- `scan` leaves the character sequence unchanged. -/
theorem scan_characters {T : Type} (s : Scanner) (cb : String → Option (Action T)) :
    (s.scan cb).2.characters = s.characters := by
  rw [Scanner.scan_eq_scanGo]

/-- `scan` never moves the cursor backwards nor out of bounds. -/
theorem scan_cursor {T : Type} (s : Scanner) (cb : String → Option (Action T)) :
    s.cursor ≤ (s.scan cb).2.cursor ∧
      (s.cursor ≤ s.characters.length → (s.scan cb).2.cursor ≤ s.characters.length) := by
  have h := scanGo_cursor_bounds cb (s.characters.drop s.cursor) s.cursor "" false none
  have hlen := List.length_drop s.cursor s.characters
  rw [Scanner.scan_eq_scanGo]
  dsimp only
  exact ⟨by omega, fun hle => by omega⟩

/-- One operation of the public API preserves the characters. -/
theorem applyOp_characters {α : Type} (s : Scanner) (op : Op α) :
    (applyOp s op).characters = s.characters := by
  cases op with
  | pop => exact pop_characters s
  | take c => exact take_characters s c
  | transform f => exact transform_characters s f
  | scan cb => exact scan_characters s cb

/-- One operation of the public API keeps the cursor monotone and in bounds. -/
theorem applyOp_cursor {α : Type} (s : Scanner) (op : Op α) :
    s.cursor ≤ (applyOp s op).cursor ∧
      (s.cursor ≤ s.characters.length → (applyOp s op).cursor ≤ s.characters.length) := by
  cases op with
  | pop => exact pop_cursor s
  | take c => exact take_cursor s c
  | transform f => exact transform_cursor s f
  | scan cb => exact scan_cursor s cb

/-- Claim C4: along every sequence of `pop`, `take`, `transform` and `scan`
operations the character sequence is fixed and the cursor is non-decreasing
and stays within `0 ≤ cursor ≤ length` (the lower bound is inherent in the
`Nat` cursor, matching the unsigned `usize` of the source). -/
theorem C4_cursor_invariant :
    ∀ (α : Type) (ops : List (Op α)) (s : Scanner), s.cursor ≤ s.characters.length →
      (runOps ops s).characters = s.characters ∧
        s.cursor ≤ (runOps ops s).cursor ∧
        (runOps ops s).cursor ≤ (runOps ops s).characters.length := by
  intro α ops
  induction ops with
  | nil => exact fun s h => ⟨rfl, Nat.le_refl _, h⟩
  | cons op rest ih =>
    intro s h
    have hchars := applyOp_characters s op
    have hcur := applyOp_cursor s op
    have hrec := ih (applyOp s op) (by rw [hchars]; exact hcur.2 h)
    refine ⟨?_, ?_, ?_⟩
    · show (runOps rest (applyOp s op)).characters = s.characters
      rw [hrec.1, hchars]
    · exact Nat.le_trans hcur.1 hrec.2.1
    · exact hrec.2.2

/-- Witness for C4: a concrete pop, take and scan run from a fresh scanner. -/
theorem C4_witness :
    (runOps [Op.pop, Op.take 'b', Op.scan cbNone] (Scanner.mk 0 ['a', 'b'])).characters =
        ['a', 'b'] ∧
      0 ≤ (runOps [Op.pop, Op.take 'b', Op.scan cbNone] (Scanner.mk 0 ['a', 'b'])).cursor ∧
      (runOps [Op.pop, Op.take 'b', Op.scan cbNone] (Scanner.mk 0 ['a', 'b'])).cursor ≤
        (runOps [Op.pop, Op.take 'b', Op.scan cbNone] (Scanner.mk 0 ['a', 'b'])).characters.length :=
  C4_cursor_invariant Nat [Op.pop, Op.take 'b', Op.scan cbNone] (Scanner.mk 0 ['a', 'b'])
    (by decide)

/-- Claim C5: `pop` on a non-exhausted store returns the character at the
pre-call cursor and advances by exactly one; on an exhausted store it
returns nothing and leaves the state unchanged. -/
theorem C5_pop :
    ∀ (s : Scanner),
      (∀ c : Char, s.characters[s.cursor]? = some c →
        s.pop = (some c, { s with cursor := s.cursor + 1 })) ∧
      (s.characters.length ≤ s.cursor → s.pop = (none, s)) := by
  intro s
  constructor
  · intro c h
    unfold Scanner.pop
    rw [h]
  · intro h
    unfold Scanner.pop
    rw [List.getElem?_eq_none_iff.mpr h]

/-- Witness for C5: popping "a" from the start, and popping at the end. -/
theorem C5_witness :
    (Scanner.mk 0 ['a']).pop = (some 'a', Scanner.mk 1 ['a']) ∧
      (Scanner.mk 1 ['a']).pop = (none, Scanner.mk 1 ['a']) :=
  ⟨(C5_pop (Scanner.mk 0 ['a'])).1 'a' rfl, (C5_pop (Scanner.mk 1 ['a'])).2 (by decide)⟩

/-- Case analysis of `take`: success is plain character equality at the
cursor; success advances by one, failure changes nothing. -/
theorem take_spec (s : Scanner) (c : Char) :
    ((s.take c).1 = true ↔ s.characters[s.cursor]? = some c) ∧
      ((s.take c).1 = true → (s.take c).2 = { s with cursor := s.cursor + 1 }) ∧
      ((s.take c).1 = false → (s.take c).2 = s) := by
  unfold Scanner.take
  cases h : s.characters[s.cursor]? with
  | none => simp
  | some ch =>
    by_cases hc : ch = c
    · subst hc
      simp
    · simp [hc]

/-- Claim C6: `take c` returns true and advances by one exactly when the
character at the cursor equals `c` (plain equality); otherwise it returns
false and leaves the scanner unchanged, so two consecutive non-matching
takes never advance the cursor. -/
theorem C6_take :
    ∀ (s : Scanner) (c : Char),
      ((s.take c).1 = true ↔ s.characters[s.cursor]? = some c) ∧
        ((s.take c).1 = true → (s.take c).2 = { s with cursor := s.cursor + 1 }) ∧
        ((s.take c).1 = false → (s.take c).2 = s) ∧
        (∀ c2 : Char, (s.take c).1 = false → ((s.take c).2.take c2).1 = false →
          ((s.take c).2.take c2).2.cursor = s.cursor) := by
  intro s c
  obtain ⟨hiff, htrue, hfalse⟩ := take_spec s c
  refine ⟨hiff, htrue, hfalse, ?_⟩
  intro c2 h1 h2
  rw [hfalse h1] at h2 ⊢
  rw [(take_spec s c2).2.2 h2]

/-- Witness for C6: a matching take, then two non-matching takes in a row. -/
theorem C6_witness :
    ((Scanner.mk 0 ['a', 'b']).take 'a').1 = true ∧
      ((Scanner.mk 0 ['a', 'b']).take 'a').2 = Scanner.mk 1 ['a', 'b'] ∧
      (((Scanner.mk 0 ['a', 'b']).take 'x').2.take 'y').2.cursor = 0 := by
  refine ⟨?_, ?_, ?_⟩
  · exact (C6_take (Scanner.mk 0 ['a', 'b']) 'a').1.mpr rfl
  · exact (C6_take (Scanner.mk 0 ['a', 'b']) 'a').2.1
      ((C6_take (Scanner.mk 0 ['a', 'b']) 'a').1.mpr rfl)
  · exact (C6_take (Scanner.mk 0 ['a', 'b']) 'x').2.2.2 'y' rfl rfl

/-- Claim C7: `transform f` returns nothing and stays put at end of input;
otherwise it applies `f` to the character at the cursor, advancing by one
and returning the value when `f` yields one, and staying put with no value
when it does not. -/
theorem C7_transform :
    ∀ (U : Type) (s : Scanner) (f : Char → Option U),
      (s.characters.length ≤ s.cursor → s.transform f = (none, s)) ∧
      (∀ c : Char, s.characters[s.cursor]? = some c →
        (∀ u : U, f c = some u →
          s.transform f = (some u, { s with cursor := s.cursor + 1 })) ∧
        (f c = none → s.transform f = (none, s))) := by
  intro U s f
  constructor
  · intro h
    unfold Scanner.transform
    rw [List.getElem?_eq_none_iff.mpr h]
  · intro c hc
    constructor
    · intro u hu
      unfold Scanner.transform
      rw [hc]
      dsimp only
      rw [hu]
    · intro hn
      unfold Scanner.transform
      rw [hc]
      dsimp only
      rw [hn]

/-- Witness for C7: at end of input, on an accepted character, and on a
rejected character. -/
theorem C7_witness :
    (Scanner.mk 0 ([] : List Char)).transform fOnlyA = (none, Scanner.mk 0 []) ∧
      (Scanner.mk 0 ['a']).transform fOnlyA = (some 0, Scanner.mk 1 ['a']) ∧
      (Scanner.mk 0 ['b']).transform fOnlyA = (none, Scanner.mk 0 ['b']) :=
  ⟨(C7_transform Nat (Scanner.mk 0 []) fOnlyA).1 (by decide),
    ((C7_transform Nat (Scanner.mk 0 ['a']) fOnlyA).2 'a' rfl).1 0 rfl,
    ((C7_transform Nat (Scanner.mk 0 ['b']) fOnlyA).2 'b' rfl).2 rfl⟩

/-- Claim C8: the scan loop terminates (`scanAux` is a total function) and,
from any in-bounds cursor, makes at most `length - cursor + 1` classifier
invocations (the ghost `args` field records one entry per invocation) while
the cursor never leaves the character sequence. -/
theorem C8_scan_call_bound :
    ∀ (T : Type) (chars : List Char) (cb : String → Option (Action T)) (cursor : Nat)
      (sequence : String) (require : Bool) (request : Option T),
      cursor ≤ chars.length →
        (scanAux chars cb cursor sequence require request).args.length ≤
            chars.length - cursor + 1 ∧
          (scanAux chars cb cursor sequence require request).cursor ≤ chars.length := by
  intro T chars cb cursor seq req rq h
  have h1 := (scanGo_args cb (chars.drop cursor) cursor seq req rq).1
  have h2 := scanGo_cursor_bounds cb (chars.drop cursor) cursor seq req rq
  have hlen := List.length_drop cursor chars
  rw [scanAux_eq_scanGo]
  exact ⟨by omega, by omega⟩

/-- Witness for C8: the bound on a two-character input with a classifier
that never decides. -/
theorem C8_witness :
    (scanAux ['a', 'b'] cbNone 0 "" false none).args.length ≤ 3 ∧
      (scanAux ['a', 'b'] cbNone 0 "" false none).cursor ≤ 2 :=
  C8_scan_call_bound Nat ['a', 'b'] cbNone 0 "" false none (by decide)

/-- Claim C9: the classifier of a `scan` call is never invoked on an empty
string, and its i-th argument (0-based) is exactly the first i+1 characters
of the input starting at the cursor held when `scan` was called — so each
invocation's argument extends the previous one by exactly one character. -/
theorem C9_scan_classifier_args :
    ∀ (T : Type) (s : Scanner) (cb : String → Option (Action T)) (i : Nat),
      i < (scanAux s.characters cb s.cursor "" false none).args.length →
        (scanAux s.characters cb s.cursor "" false none).args[i]? =
            some (String.mk ((s.characters.drop s.cursor).take (i + 1))) ∧
          String.mk ((s.characters.drop s.cursor).take (i + 1)) ≠ "" := by
  intro T s cb i hi
  rw [scanAux_eq_scanGo] at hi ⊢
  obtain ⟨hlen, hargs⟩ := scanGo_args cb (s.characters.drop s.cursor) s.cursor "" false none
  constructor
  · have h := hargs i hi
    simpa using h
  · intro hempty
    have hlist : (s.characters.drop s.cursor).take (i + 1) = [] := by
      have h := congrArg String.data hempty
      simpa using h
    rcases List.take_eq_nil_iff.mp hlist with h0 | hnil
    · omega
    · have hz : (s.characters.drop s.cursor).length = 0 := by rw [hnil]; rfl
      omega

/-- Witness for C9: the second classifier argument of the spec scenario on
input "ab" is the two-character string "ab". -/
theorem C9_witness :
    (scanAux ['a', 'b'] cbRequestRequire 0 "" false none).args[1]? = some "ab" ∧
      ("ab" : String) ≠ "" := by
  have h := C9_scan_classifier_args Nat (Scanner.mk 0 ['a', 'b']) cbRequestRequire 1
    (by rw [scanAux_eq_scanGo]; decide)
  exact ⟨h.1, h.2⟩

/-- Counterexample for C10 as stated: two scanners agreeing on their unread
suffixes (same remaining characters, same remaining length) whose scans
return different result values — the invalid-character error embeds the
absolute cursor offset, which differs. -/
theorem C10_counterexample :
    (Scanner.mk 1 ['x', 'a', 'b']).characters.drop (Scanner.mk 1 ['x', 'a', 'b']).cursor =
        (Scanner.mk 0 ['a', 'b']).characters.drop (Scanner.mk 0 ['a', 'b']).cursor ∧
      ((Scanner.mk 1 ['x', 'a', 'b']).scan cbRequireA).1 ≠
        ((Scanner.mk 0 ['a', 'b']).scan cbRequireA).1 := by
  constructor
  · rfl
  · intro h
    rw [Scanner.scan_eq_scanGo, Scanner.scan_eq_scanGo] at h
    have h2 : (Except.error (Error.Character 2) : Except Error (Option Nat)) =
        Except.error (Error.Character 1) := h
    simp at h2

/-- Claim C10 as amended: for any two scanner states whose character
sequences agree at and after their cursors, scan with the same callback
advances the two cursors by the same amount and yields the same outcome up
to error-position translation — the same success value, the same
end-of-input error, and invalid-character positions that agree relative to
the respective starting cursors (the absolute reported position differs by
the difference of the starting offsets). -/
theorem C10_suffix_determines_scan :
    ∀ (T : Type) (s1 s2 : Scanner) (cb : String → Option (Action T)),
      s1.characters.drop s1.cursor = s2.characters.drop s2.cursor →
        ((s1.scan cb).2.cursor - s1.cursor = (s2.scan cb).2.cursor - s2.cursor) ∧
        (∀ v : Option T, (s1.scan cb).1 = Except.ok v ↔ (s2.scan cb).1 = Except.ok v) ∧
        ((s1.scan cb).1 = Except.error Error.EndOfLine ↔
          (s2.scan cb).1 = Except.error Error.EndOfLine) ∧
        (∀ d : Nat, (s1.scan cb).1 = Except.error (Error.Character (s1.cursor + d)) ↔
          (s2.scan cb).1 = Except.error (Error.Character (s2.cursor + d))) := by
  intro T s1 s2 cb hsuf
  have h1 := scanGo_shift cb (s2.characters.drop s2.cursor) s1.cursor 0 "" false none
  have h2 := scanGo_shift cb (s2.characters.drop s2.cursor) s2.cursor 0 "" false none
  rw [Nat.zero_add] at h1 h2
  rw [Scanner.scan_eq_scanGo, Scanner.scan_eq_scanGo, hsuf, h1, h2]
  dsimp only
  refine ⟨by omega, fun v => ?_, ?_, fun d => ?_⟩
  all_goals
    cases hres : (scanGo cb 0 (s2.characters.drop s2.cursor) "" false none).result with
    | ok u => simp [shiftResult]
    | error e =>
      cases e <;> simp [shiftResult, shiftError] <;> omega

/-- Witness for the amended C10: scanning "ab" from offset 1 of "xab" and
from offset 0 of "ab" advances both cursors by one, and the two
invalid-character errors sit one past the respective starting cursors. -/
theorem C10_witness :
    (((Scanner.mk 1 ['x', 'a', 'b']).scan cbRequireA).2.cursor - 1 =
        ((Scanner.mk 0 ['a', 'b']).scan cbRequireA).2.cursor - 0) ∧
      (((Scanner.mk 1 ['x', 'a', 'b']).scan cbRequireA).1 =
          Except.error (Error.Character (1 + 1)) ↔
        ((Scanner.mk 0 ['a', 'b']).scan cbRequireA).1 =
          Except.error (Error.Character (0 + 1))) := by
  have h := C10_suffix_determines_scan Nat (Scanner.mk 1 ['x', 'a', 'b'])
    (Scanner.mk 0 ['a', 'b']) cbRequireA rfl
  exact ⟨h.1, h.2.2.2 1⟩

end Lyn
